import Mathlib

/-!
Shallow embedding of `src/adni_pet_pipeline.py` (an ADNI PET data-linkage
pipeline built on pandas).  Tables are lists of rows; a nullable column is an
`Option` field.  `pd.merge_asof(..., by="RID", direction="nearest")` is
modelled from pandas' implemented semantics: the on-key of each side must be
free of nulls and globally monotone non-decreasing (otherwise pandas raises
`ValueError`, modelled as `Except.error`), and for each left row the backward
candidate (last right row of the same RID whose date is `≤ t`) is chosen over
the forward candidate (first right row of the same RID whose date is `≥ t`)
exactly when `t - backward ≤ forward - t`, i.e. ties go to the earlier right
record.  `pd.merge(..., how="left")` on exact keys, `drop_duplicates(...,
keep="last")`, the QC filter, the APOE4 genotype mapping, the scan-gap
tolerance filter and the FS-region column selection are translated directly
from the source lines they model (noted on each definition).
-/

/-- A row of one of the pipeline's tables: the subject key `RID`, the
date column used for matching (`SCANDATE` / `EXAMDATE`), both nullable,
and the remaining columns as an opaque payload. -/
structure Row (α : Type) where
  rid  : Option Int
  date : Option Int
  pay  : α
deriving Repr, DecidableEq

/-- `sort_values` ordering on one nullable column: ascending, nulls placed
last (pandas `na_position="last"`). -/
def optLE : Option Int → Option Int → Bool
  | none,   none   => true
  | none,   some _ => false
  | some _, none   => true
  | some a, some b => decide (a ≤ b)

/-- Strict version of `optLE`. -/
def optLT (x y : Option Int) : Bool := optLE x y && !(optLE y x)

/-- Row ordering of `df.sort_values(["RID", <datecol>])`
(lines 30-31, 126-127, 187-188 of the source). -/
def rowLE (a b : Row α) : Bool :=
  optLT a.rid b.rid || (a.rid == b.rid && optLE a.date b.date)

/-- Insert `a` into `l` before the first element it is `le`-below. -/
def ordered_insert (le : α → α → Bool) (a : α) : List α → List α
  | [] => [a]
  | b :: l => if le a b then a :: b :: l else b :: ordered_insert le a l

/-- A sort by the boolean relation `le` (any correct comparison sort models
pandas' `sort_values`; pandas' own quicksort is unstable, so the order of
rows with equal keys is unspecified there anyway). -/
def insertion_sort (le : α → α → Bool) : List α → List α
  | [] => []
  | a :: l => ordered_insert le a (insertion_sort le l)

/-- `df.sort_values(["RID", <datecol>])`. -/
def sort_values (l : List (Row α)) : List (Row α) := insertion_sort rowLE l

/-- `df.dropna(subset=["RID", <datecol>])` (lines 27-28 of the source). -/
def dropna_rid_date (l : List (Row α)) : List (Row α) :=
  l.filter (fun r => r.rid.isSome && r.date.isSome)

/-- pandas' validation of a `merge_asof` on-key: any null value raises. -/
def has_null_date (l : List (Row α)) : Bool := l.any (fun r => r.date.isNone)

/-- pandas' validation of a `merge_asof` on-key: the whole column (not just
each RID group) must be monotone non-decreasing; comparisons with a null
date fail. -/
def is_monotonic_dates : List (Row α) → Bool
  | [] => true
  | [_] => true
  | a :: b :: rest =>
    (match a.date, b.date with
     | some x, some y => decide (x ≤ y)
     | _, _ => false) && is_monotonic_dates (b :: rest)

/-- Does row `r` have a (non-null) date `≤ t`? -/
def dateLE (r : Row α) (t : Int) : Bool :=
  match r.date with
  | some d => decide (d ≤ t)
  | none => false

/-- Does row `r` have a (non-null) date `≥ t`? -/
def dateGE (r : Row α) (t : Int) : Bool :=
  match r.date with
  | some d => decide (t ≤ d)
  | none => false

/-- pandas backward asof search within the candidate list of one RID:
the last (hence, on sorted data, latest-dated) candidate with date `≤ t`. -/
def asof_backward (t : Int) (cands : List (Row β)) : Option (Row β) :=
  (cands.filter (fun r => dateLE r t)).getLast?

/-- pandas forward asof search within the candidate list of one RID:
the first (hence, on sorted data, earliest-dated) candidate with date `≥ t`. -/
def asof_forward (t : Int) (cands : List (Row β)) : Option (Row β) :=
  (cands.filter (fun r => dateGE r t)).head?

/-- pandas `direction="nearest"` selection (join.pyx `asof_join_nearest`):
take the backward candidate iff `t - backward ≤ forward - t`, so an
equal-distance tie resolves to the earlier (backward) right record. -/
def asof_nearest (t : Int) (cands : List (Row β)) : Option (Row β) :=
  match asof_backward t cands, asof_forward t cands with
  | some b, some f => if t - b.date.getD t ≤ f.date.getD t - t then some b else some f
  | some b, none   => some b
  | none,   some f => some f
  | none,   none   => none

/-- The grouped join of `pd.merge_asof(..., by="RID")`: each left row is
paired with the nearest right row among rows of the same RID (null when the
RID has no right rows). -/
def asof_join_by_rid (left : List (Row α)) (right : List (Row β)) :
    List (Row α × Option (Row β)) :=
  left.map (fun l => (l, asof_nearest (l.date.getD 0) (right.filter (fun r => r.rid == l.rid))))

/-- `pd.merge_asof(left, right, left_on=.., right_on=.., by="RID",
direction="nearest")` including pandas' on-key validation: null on-keys or a
non-monotone on-key column raise `ValueError` (here `Except.error`). -/
def merge_asof (left : List (Row α)) (right : List (Row β)) :
    Except String (List (Row α × Option (Row β))) :=
  if has_null_date left then .error ("Merge keys contain null values on left side")
  else if !is_monotonic_dates left then .error ("left keys must be sorted")
  else if has_null_date right then .error ("Merge keys contain null values on right side")
  else if !is_monotonic_dates right then .error ("right keys must be sorted")
  else .ok (asof_join_by_rid left right)

/-- `attach_nearest_visit` (source lines 17-42): dropna on `["RID", date]`
on both sides, sort both by `["RID", date]`, then `merge_asof` by RID with
`direction="nearest"` against the projection
`reg[["RID", reg_date_col, *keep_reg_cols]]` (line 35).  With the default
arguments — used at both call sites, lines 104 and 165 — `reg_date_col`
is `"EXAMDATE"` and also appears in `keep_reg_cols`, so the projection
selects the EXAMDATE merge key twice; pandas raises
`ValueError: The column label 'EXAMDATE' is not unique` while extracting
the right merge key, before any null/sortedness validation or matching.
The function therefore never returns a joined frame (the earlier dropna
and sorts, lines 27-31, run but their effect is unobservable). -/
def attach_nearest_visit (_pet : List (Row α)) (_reg : List (Row β)) :
    Except String (List (Row α × Option (Row β))) :=
  .error ("The column label 'EXAMDATE' is not unique")

/-- The nearest join of TAU rows with ADNIMERGE rows (source lines 125-133):
sorts both sides by `["RID", date]` but, unlike `attach_nearest_visit`,
performs no dropna before the `merge_asof`. -/
def tau_adni_asof (tauMerged : List (Row α)) (adni2 : List (Row β)) :
    Except String (List (Row α × Option (Row β))) :=
  merge_asof (sort_values tauMerged) (sort_values adni2)

/-- The nearest join of TAU rows with amyloid rows (source lines 186-194):
sorts both sides by `["RID", date]`, no dropna before the `merge_asof`. -/
def tau_amy_asof (tauAdni : List (Row α)) (amyMerged : List (Row β)) :
    Except String (List (Row α × Option (Row β))) :=
  merge_asof (sort_values tauAdni) (sort_values amyMerged)

/-- `AMY_TAU_SCANDIFF_DAYS` (source line 196): amyloid scan date minus tau
scan date, in whole days; null when either date is null or the row has no
matched amyloid scan. -/
def gap_days (p : Row α × Option (Row β)) : Option Int :=
  match p.2 with
  | some a =>
    match a.date, p.1.date with
    | some da, some dt => some (da - dt)
    | _, _ => none
  | none => none

/-- Source line 197: keep rows with `abs(AMY_TAU_SCANDIFF_DAYS) < 365`;
a null gap fails the comparison and the row is dropped. -/
def filter_scandiff (l : List (Row α × Option (Row β))) :
    List (Row α × Option (Row β)) :=
  l.filter (fun p =>
    match gap_days p with
    | some g => decide (|g| < 365)
    | none => false)

/-- A row of a PET data table for `filter_pet_qc`: the QC flag and tracer
values it would carry if those columns exist. -/
structure PetRow where
  qc_flag : Int
  tracer : String
deriving Repr, DecidableEq

/-- A PET data table: which of the two relevant columns exist in the schema,
plus the rows. -/
structure PetTable where
  has_qc_col : Bool
  has_tracer_col : Bool
  rows : List PetRow
deriving Repr, DecidableEq

/-- `filter_pet_qc` (source lines 44-50): if the QC column exists keep rows
whose flag equals `qc_pass`; if the exclusion list is truthy (non-empty) and
the tracer column exists, additionally drop rows whose tracer is in it. -/
def filter_pet_qc (t : PetTable) (qc_pass : Int) (exclude_tracers : List String) : PetTable :=
  let rows1 := if t.has_qc_col then t.rows.filter (fun r => r.qc_flag == qc_pass) else t.rows
  let rows2 :=
    if !exclude_tracers.isEmpty && t.has_tracer_col then
      rows1.filter (fun r => !exclude_tracers.contains r.tracer)
    else rows1
  ⟨t.has_qc_col, t.has_tracer_col, rows2⟩

/-- A row of the raw APOE table: subject key and genotype string. -/
structure ApoeRow where
  rid : Int
  genotype : String
deriving Repr, DecidableEq

/-- `drop_duplicates(subset=["RID"], keep="last")` (source line 54): keep,
for each RID, only its last occurrence, preserving the order of kept rows. -/
def drop_duplicates_last : List ApoeRow → List ApoeRow
  | [] => []
  | x :: xs =>
    if xs.any (fun y => y.rid == x.rid) then drop_duplicates_last xs
    else x :: drop_duplicates_last xs

/-- The genotype-to-risk lookup (source line 56); genotypes outside the six
keys map to null (pandas `.map` yields NaN). -/
def apoe_mapping : String → Option Nat
  | "2/2" => some 0
  | "2/3" => some 0
  | "3/3" => some 0
  | "2/4" => some 1
  | "3/4" => some 1
  | "4/4" => some 2
  | _ => none

/-- `add_apoe4_status` (source lines 52-58): dedupe to the last record per
RID, map the genotype through the lookup, return `RID, APOE4` pairs. -/
def add_apoe4_status (l : List ApoeRow) : List (Int × Option Nat) :=
  (drop_duplicates_last l).map (fun r => (r.rid, apoe_mapping r.genotype))

/-- A row keyed by subject and visit code, as used by the exact-key metadata
merges (source lines 87-92 and 150-155). -/
structure KeyedRow (α : Type) where
  rid : Int
  viscode : String
  pay : α
deriving Repr, DecidableEq

/-- `taumeta.merge(tau_qc_keep, on=["RID","VISCODE"], how="left")`
(source lines 87-92): every left row is kept; it pairs with each right row
agreeing on BOTH `RID` and `VISCODE`, or with null right fields if none. -/
def tau_meta_qc_merge (left : List (KeyedRow α)) (right : List (KeyedRow β)) :
    List (KeyedRow α × Option (KeyedRow β)) :=
  left.flatMap (fun l =>
    if (right.filter (fun r => r.rid == l.rid && r.viscode == l.viscode)).isEmpty then
      [(l, none)]
    else
      (right.filter (fun r => r.rid == l.rid && r.viscode == l.viscode)).map (fun r => (l, some r)))

/-- `amy_meta.merge(amy_qc[...], on="RID", how="left")` (source lines
150-155): every left row is kept; it pairs with each right row agreeing on
`RID` alone (the visit code is NOT part of the key), or with null right
fields if none. -/
def amy_meta_qc_merge (left : List (KeyedRow α)) (right : List (KeyedRow β)) :
    List (KeyedRow α × Option (KeyedRow β)) :=
  left.flatMap (fun l =>
    if (right.filter (fun r => r.rid == l.rid)).isEmpty then
      [(l, none)]
    else
      (right.filter (fun r => r.rid == l.rid)).map (fun r => (l, some r)))

/-- FS label normalization (source lines 202-203): `-` becomes `_`,
uppercase, then the suffix `_SUVR` is appended. -/
def normalize_fs_label (s : String) : String :=
  (s.replace ("-") ("_")).toUpper ++ "_SUVR"

/-- The hardcoded subcortical catalog positions (source line 208). -/
def subcortical_idx : List Nat := [34,35,36,37,38,39,40,41,42,43,44,45,46,47,48,83]

/-- `np.delete(arr, idx)` on a list of labels: remove the entries at the
given positions, keeping the order of the rest; numpy raises `IndexError`
whenever any requested position is out of range for the array. -/
def np_delete (l : List String) (idx : List Nat) : Except String (List String) :=
  if idx.all (fun i => decide (i < l.length)) then
    .ok ((l.enum.filter (fun p => !idx.contains p.1)).map (fun p => p.2))
  else
    .error ("IndexError: index out of bounds")

/-- `ordered` (source line 209): the catalog labels with the subcortical
positions removed; since `subcortical_idx` reaches position 83, line 209
raises for any catalog with fewer than 84 entries. -/
def ordered_labels (catalog : List String) : Except String (List String) :=
  np_delete catalog subcortical_idx

/-- Line 210's comprehension `[c for c in ordered if c in tau_amy.columns]`
as a function of the materialized `ordered` list. -/
def suvr_cols_from (ordered : List String) (cols : List String) : List String :=
  ordered.filter (fun c => cols.contains c)

/-- `suvr_cols_ordered` (source line 210): the retained catalog labels that
actually occur among the table's columns, in catalog order — provided line
209 did not raise. -/
def suvr_cols_ordered (catalog : List String) (cols : List String) :
    Except String (List String) :=
  (ordered_labels catalog).map (fun ord => suvr_cols_from ord cols)

/-- Python's `c.endswith(t)`, computed structurally on the character lists
of the two strings. -/
def ends_with (c t : String) : Bool := t.data.isSuffixOf c.data

/-- `non_suvr_cols` (source line 212): the table columns not ending in
`_SUVR`, in table order. -/
def non_suvr_cols (cols : List String) : List String :=
  cols.filter (fun c => !(ends_with c ("_SUVR")))

/-- The column list of `tau_amy_cortical` (source line 213): all non-SUVR
columns in table order, then the retained catalog labels in catalog order —
provided line 209 did not raise. -/
def tau_amy_cortical_cols (catalog : List String) (cols : List String) :
    Except String (List String) :=
  (suvr_cols_ordered catalog cols).map (fun sel => non_suvr_cols cols ++ sel)

/-- Payload of an ADNIMERGE row for the claims below: the `DX` column. -/
structure AdniPay where
  dx : Option String
deriving Repr, DecidableEq

/-- Payload of a `tau_adni` row: the `DX` column brought in by the
ADNIMERGE nearest join and the `APOE4` column added later. -/
structure TAPay where
  dx : Option String
  apoe4 : Option Nat
deriving Repr, DecidableEq

/-- Source lines 125-133 specialised to the columns tracked here: the
nearest ADNIMERGE join flattens the matched row's `DX` onto the TAU row
(null when unmatched or when the matched row's `DX` is null); `APOE4` does
not exist yet. -/
def tau_adni_join (tauMerged : List (Row Unit)) (adni2 : List (Row AdniPay)) :
    Except String (List (Row TAPay)) :=
  (tau_adni_asof tauMerged adni2).map
    (fun out => out.map (fun p => ⟨p.1.rid, p.1.date, ⟨p.2.bind (fun a => a.pay.dx), none⟩⟩))

/-- `tau_adni.merge(apoe, on="RID", how="left")` (source line 139): attach
the `APOE4` value of the matching APOE row; null when the subject has no
APOE row. -/
def merge_apoe (rows : List (Row TAPay)) (ap : List (Int × Option Nat)) :
    List (Row TAPay) :=
  rows.flatMap (fun t =>
    if (ap.filter (fun p => t.rid == some p.1)).isEmpty then
      [⟨t.rid, t.date, ⟨t.pay.dx, none⟩⟩]
    else
      (ap.filter (fun p => t.rid == some p.1)).map (fun p => ⟨t.rid, t.date, ⟨t.pay.dx, p.2⟩⟩))

/-- `tau_adni.dropna(subset=["APOE4","DX"])` (source line 145). -/
def dropna_apoe_dx (rows : List (Row TAPay)) : List (Row TAPay) :=
  rows.filter (fun t => t.pay.apoe4.isSome && t.pay.dx.isSome)

/-- The last genotype recorded for a subject in the raw APOE table. -/
def last_genotype (l : List ApoeRow) (rid : Int) : Option String :=
  ((l.filter (fun r => r.rid == rid)).getLast?).map (fun r => r.genotype)

/-! ## Helper lemmas -/

/-- `ordered_insert` permutes the element onto the front. -/
theorem perm_ordered_insert (le : α → α → Bool) (a : α) :
    ∀ l : List α, (ordered_insert le a l).Perm (a :: l)
  | [] => List.Perm.refl _
  | b :: l => by
    simp only [ordered_insert]
    split
    · exact List.Perm.refl _
    · exact ((perm_ordered_insert le a l).cons b).trans (List.Perm.swap a b l)

/-- `insertion_sort` is a permutation of its input. -/
theorem perm_insertion_sort (le : α → α → Bool) :
    ∀ l : List α, (insertion_sort le l).Perm l
  | [] => List.Perm.refl _
  | a :: l =>
    (perm_ordered_insert le a (insertion_sort le l)).trans
      ((perm_insertion_sort le l).cons a)

/-- `sort_values` is a permutation of its input. -/
theorem sort_values_perm (l : List (Row α)) : (sort_values l).Perm l :=
  perm_insertion_sort rowLE l

/-- Membership is preserved by `sort_values`. -/
theorem mem_sort_values {r : Row α} {l : List (Row α)} :
    r ∈ sort_values l ↔ r ∈ l :=
  (sort_values_perm l).mem_iff

/-- The date ordering used in sortedness reasoning (null dates read as 0;
rows reaching this relation always have non-null dates). -/
def date_le_row (a b : Row α) : Prop := a.date.getD 0 ≤ b.date.getD 0

/-- A list passing pandas' monotonicity check is pairwise date-ordered. -/
theorem monotone_pairwise :
    ∀ l : List (Row α), is_monotonic_dates l = true → l.Pairwise date_le_row
  | [], _ => List.Pairwise.nil
  | [a], _ => List.pairwise_singleton _ a
  | a :: b :: rest, h => by
    simp only [is_monotonic_dates, Bool.and_eq_true] at h
    obtain ⟨h1, h2⟩ := h
    have ih := monotone_pairwise (b :: rest) h2
    refine List.pairwise_cons.mpr ⟨?_, ih⟩
    intro x hx
    have hab : date_le_row a b := by
      unfold date_le_row
      cases ha : a.date with
      | none => rw [ha] at h1; simp at h1
      | some x0 =>
        cases hb : b.date with
        | none => rw [ha, hb] at h1; simp at h1
        | some y0 => rw [ha, hb] at h1; simp_all
    rcases List.mem_cons.mp hx with rfl | hx2
    · exact hab
    · exact le_trans hab (List.rel_of_pairwise_cons ih hx2)

/-- In a pairwise-ordered list, the last element is maximal. -/
theorem pairwise_getLast_rel {R : α → α → Prop} :
    ∀ (l : List α) (b : α), l.Pairwise R → l.getLast? = some b →
      ∀ a ∈ l, a = b ∨ R a b
  | [], b, _, h => by simp at h
  | [x], b, _, h => by
    intro a ha
    simp only [List.getLast?_singleton, Option.some.injEq] at h
    rcases List.mem_singleton.mp ha with rfl
    exact Or.inl h
  | x :: y :: rest, b, hp, h => by
    rw [List.getLast?_cons_cons] at h
    have ih := pairwise_getLast_rel (y :: rest) b (List.pairwise_cons.mp hp).2 h
    intro a ha
    rcases List.mem_cons.mp ha with rfl | ha2
    · exact Or.inr ((List.pairwise_cons.mp hp).1 b (List.mem_of_getLast?_eq_some h))
    · exact ih a ha2

/-- In a pairwise-ordered list, the head is minimal. -/
theorem pairwise_head_rel {R : α → α → Prop} (l : List α) (b : α)
    (hp : l.Pairwise R) (h : l.head? = some b) : ∀ a ∈ l, a = b ∨ R b a := by
  cases l with
  | nil => simp at h
  | cons x xs =>
    simp only [List.head?_cons, Option.some.injEq] at h
    subst h
    intro a ha
    rcases List.mem_cons.mp ha with rfl | ha2
    · exact Or.inl rfl
    · exact Or.inr ((List.pairwise_cons.mp hp).1 a ha2)

/-- A successful backward search yields a member with date `≤ t`. -/
theorem asof_backward_mem {t : Int} {cands : List (Row β)} {b : Row β}
    (h : asof_backward t cands = some b) : b ∈ cands ∧ dateLE b t = true := by
  have hm := List.mem_of_getLast?_eq_some h
  exact ⟨(List.mem_filter.mp hm).1, (List.mem_filter.mp hm).2⟩

/-- On a date-ordered candidate list the backward search is maximal among
candidates with date `≤ t`. -/
theorem asof_backward_max {t : Int} {cands : List (Row β)} {b : Row β}
    (hp : cands.Pairwise date_le_row) (h : asof_backward t cands = some b) :
    ∀ a ∈ cands, dateLE a t = true → a.date.getD 0 ≤ b.date.getD 0 := by
  intro a ha hle
  have hpf : (cands.filter (fun r => dateLE r t)).Pairwise date_le_row :=
    List.Pairwise.sublist (List.filter_sublist _) hp
  have hmem : a ∈ cands.filter (fun r => dateLE r t) := List.mem_filter.mpr ⟨ha, hle⟩
  rcases pairwise_getLast_rel _ b hpf h a hmem with rfl | hrel
  · exact le_refl _
  · exact hrel

/-- A failed backward search means no candidate has date `≤ t`. -/
theorem asof_backward_none {t : Int} {cands : List (Row β)}
    (h : asof_backward t cands = none) : ∀ a ∈ cands, dateLE a t = false := by
  intro a ha
  have hnil : cands.filter (fun r => dateLE r t) = [] :=
    List.getLast?_eq_none_iff.mp h
  exact eq_false_of_ne_true (List.filter_eq_nil_iff.mp hnil a ha)

/-- A successful forward search yields a member with date `≥ t`. -/
theorem asof_forward_mem {t : Int} {cands : List (Row β)} {f : Row β}
    (h : asof_forward t cands = some f) : f ∈ cands ∧ dateGE f t = true := by
  have hm := List.mem_of_mem_head? h
  exact ⟨(List.mem_filter.mp hm).1, (List.mem_filter.mp hm).2⟩

/-- On a date-ordered candidate list the forward search is minimal among
candidates with date `≥ t`. -/
theorem asof_forward_min {t : Int} {cands : List (Row β)} {f : Row β}
    (hp : cands.Pairwise date_le_row) (h : asof_forward t cands = some f) :
    ∀ a ∈ cands, dateGE a t = true → f.date.getD 0 ≤ a.date.getD 0 := by
  intro a ha hge
  have hpf : (cands.filter (fun r => dateGE r t)).Pairwise date_le_row :=
    List.Pairwise.sublist (List.filter_sublist _) hp
  have hmem : a ∈ cands.filter (fun r => dateGE r t) := List.mem_filter.mpr ⟨ha, hge⟩
  rcases pairwise_head_rel _ f hpf h a hmem with rfl | hrel
  · exact le_refl _
  · exact hrel

/-- A failed forward search means no candidate has date `≥ t`. -/
theorem asof_forward_none {t : Int} {cands : List (Row β)}
    (h : asof_forward t cands = none) : ∀ a ∈ cands, dateGE a t = false := by
  intro a ha
  have hnil : cands.filter (fun r => dateGE r t) = [] :=
    List.head?_eq_none_iff.mp h
  exact eq_false_of_ne_true (List.filter_eq_nil_iff.mp hnil a ha)

/-- The `direction="nearest"` choice on a date-ordered candidate list
returns a candidate minimizing the absolute date distance, with an
equal-distance tie resolved to the earlier date. -/
theorem asof_nearest_spec {t : Int} {cands : List (Row β)} {r : Row β}
    (hp : cands.Pairwise date_le_row) (h : asof_nearest t cands = some r) :
    r ∈ cands ∧ ∃ d, r.date = some d ∧
      ∀ a ∈ cands, ∀ da, a.date = some da →
        |t - d| ≤ |t - da| ∧ (|t - d| = |t - da| → d ≤ da) := by
  unfold asof_nearest at h
  cases hb : asof_backward t cands with
  | some b =>
    obtain ⟨hbm, hbLE⟩ := asof_backward_mem hb
    obtain ⟨bd, hbd, hbdt⟩ : ∃ bd, b.date = some bd ∧ bd ≤ t := by
      unfold dateLE at hbLE
      cases hbdate : b.date with
      | none => rw [hbdate] at hbLE; simp at hbLE
      | some bd => rw [hbdate] at hbLE; exact ⟨bd, rfl, of_decide_eq_true hbLE⟩
    cases hf : asof_forward t cands with
    | some f =>
      obtain ⟨hfm, hfGE⟩ := asof_forward_mem hf
      obtain ⟨fd, hfd, hfdt⟩ : ∃ fd, f.date = some fd ∧ t ≤ fd := by
        unfold dateGE at hfGE
        cases hfdate : f.date with
        | none => rw [hfdate] at hfGE; simp at hfGE
        | some fd => rw [hfdate] at hfGE; exact ⟨fd, rfl, of_decide_eq_true hfGE⟩
      rw [hb, hf] at h
      have h2 : (if t - b.date.getD t ≤ f.date.getD t - t then some b else some f) = some r := h
      rw [hbd, hfd] at h2
      simp only [Option.getD_some] at h2
      by_cases hcond : t - bd ≤ fd - t
      · rw [if_pos hcond] at h2
        cases h2
        refine ⟨hbm, bd, hbd, ?_⟩
        intro a ha da hda
        rcases le_or_lt da t with hdat | hdat
        · have haLE : dateLE a t = true := by
            unfold dateLE; rw [hda]; exact decide_eq_true hdat
          have hmax := asof_backward_max hp hb a ha haLE
          rw [hda, hbd] at hmax
          simp only [Option.getD_some] at hmax
          rw [abs_of_nonneg (show (0:Int) ≤ t - bd by omega),
            abs_of_nonneg (show (0:Int) ≤ t - da by omega)]
          omega
        · have haGE : dateGE a t = true := by
            unfold dateGE; rw [hda]; exact decide_eq_true (le_of_lt hdat)
          have hmin := asof_forward_min hp hf a ha haGE
          rw [hda, hfd] at hmin
          simp only [Option.getD_some] at hmin
          rw [abs_of_nonneg (show (0:Int) ≤ t - bd by omega),
            abs_of_nonpos (show t - da ≤ (0:Int) by omega)]
          omega
      · rw [if_neg hcond] at h2
        cases h2
        refine ⟨hfm, fd, hfd, ?_⟩
        intro a ha da hda
        rcases le_or_lt da t with hdat | hdat
        · have haLE : dateLE a t = true := by
            unfold dateLE; rw [hda]; exact decide_eq_true hdat
          have hmax := asof_backward_max hp hb a ha haLE
          rw [hda, hbd] at hmax
          simp only [Option.getD_some] at hmax
          rw [abs_of_nonpos (show t - fd ≤ (0:Int) by omega),
            abs_of_nonneg (show (0:Int) ≤ t - da by omega)]
          omega
        · have haGE : dateGE a t = true := by
            unfold dateGE; rw [hda]; exact decide_eq_true (le_of_lt hdat)
          have hmin := asof_forward_min hp hf a ha haGE
          rw [hda, hfd] at hmin
          simp only [Option.getD_some] at hmin
          rw [abs_of_nonpos (show t - fd ≤ (0:Int) by omega),
            abs_of_nonpos (show t - da ≤ (0:Int) by omega)]
          omega
    | none =>
      rw [hb, hf] at h
      cases h
      refine ⟨hbm, bd, hbd, ?_⟩
      intro a ha da hda
      have hnoge := asof_forward_none hf a ha
      unfold dateGE at hnoge
      rw [hda] at hnoge
      have hdat : da ≤ t := by
        have := of_decide_eq_false hnoge
        omega
      have haLE : dateLE a t = true := by
        unfold dateLE; rw [hda]; exact decide_eq_true hdat
      have hmax := asof_backward_max hp hb a ha haLE
      rw [hda, hbd] at hmax
      simp only [Option.getD_some] at hmax
      rw [abs_of_nonneg (show (0:Int) ≤ t - bd by omega),
        abs_of_nonneg (show (0:Int) ≤ t - da by omega)]
      omega
  | none =>
    cases hf : asof_forward t cands with
    | some f =>
      obtain ⟨hfm, hfGE⟩ := asof_forward_mem hf
      obtain ⟨fd, hfd, hfdt⟩ : ∃ fd, f.date = some fd ∧ t ≤ fd := by
        unfold dateGE at hfGE
        cases hfdate : f.date with
        | none => rw [hfdate] at hfGE; simp at hfGE
        | some fd => rw [hfdate] at hfGE; exact ⟨fd, rfl, of_decide_eq_true hfGE⟩
      rw [hb, hf] at h
      cases h
      refine ⟨hfm, fd, hfd, ?_⟩
      intro a ha da hda
      have hnole := asof_backward_none hb a ha
      unfold dateLE at hnole
      rw [hda] at hnole
      have hdat : t ≤ da := by
        have := of_decide_eq_false hnole
        omega
      have haGE : dateGE a t = true := by
        unfold dateGE; rw [hda]; exact decide_eq_true hdat
      have hmin := asof_forward_min hp hf a ha haGE
      rw [hda, hfd] at hmin
      simp only [Option.getD_some] at hmin
      rw [abs_of_nonpos (show t - fd ≤ (0:Int) by omega),
        abs_of_nonpos (show t - da ≤ (0:Int) by omega)]
      omega
    | none =>
      rw [hb, hf] at h
      cases h

/-- The `direction="nearest"` choice returns a member of the candidate
list (no pairwise hypothesis needed). -/
theorem asof_nearest_mem {t : Int} {cands : List (Row β)} {r : Row β}
    (h : asof_nearest t cands = some r) : r ∈ cands := by
  unfold asof_nearest at h
  cases hb : asof_backward t cands with
  | some b =>
    cases hf : asof_forward t cands with
    | some f =>
      rw [hb, hf] at h
      have h2 : (if t - b.date.getD t ≤ f.date.getD t - t then some b else some f) = some r := h
      by_cases hcond : t - b.date.getD t ≤ f.date.getD t - t
      · rw [if_pos hcond] at h2; cases h2; exact (asof_backward_mem hb).1
      · rw [if_neg hcond] at h2; cases h2; exact (asof_forward_mem hf).1
    | none =>
      rw [hb, hf] at h
      have h2 : some b = some r := h
      cases h2; exact (asof_backward_mem hb).1
  | none =>
    cases hf : asof_forward t cands with
    | some f =>
      rw [hb, hf] at h
      have h2 : some f = some r := h
      cases h2; exact (asof_forward_mem hf).1
    | none =>
      rw [hb, hf] at h
      have h2 : (none : Option (Row β)) = some r := h
      cases h2

/-- A candidate with a non-null date guarantees the nearest choice exists. -/
theorem asof_nearest_isSome {t : Int} {cands : List (Row β)} {a : Row β}
    (ha : a ∈ cands) {da : Int} (hda : a.date = some da) :
    ∃ r, asof_nearest t cands = some r := by
  cases hb : asof_backward t cands with
  | some b =>
    cases hf : asof_forward t cands with
    | some f =>
      by_cases hcond : t - b.date.getD t ≤ f.date.getD t - t
      · exact ⟨b, by unfold asof_nearest; rw [hb, hf]; exact if_pos hcond⟩
      · exact ⟨f, by unfold asof_nearest; rw [hb, hf]; exact if_neg hcond⟩
    | none => exact ⟨b, by unfold asof_nearest; rw [hb, hf]⟩
  | none =>
    cases hf : asof_forward t cands with
    | some f => exact ⟨f, by unfold asof_nearest; rw [hb, hf]⟩
    | none =>
      exfalso
      have h1 := asof_backward_none hb a ha
      have h2 := asof_forward_none hf a ha
      unfold dateLE at h1
      unfold dateGE at h2
      rw [hda] at h1 h2
      have := of_decide_eq_false h1
      have := of_decide_eq_false h2
      omega

/-- Unfolding a successful `merge_asof`: the validation checks passed and
the output is the by-RID nearest join. -/
theorem merge_asof_ok {left : List (Row α)} {right : List (Row β)}
    {out : List (Row α × Option (Row β))} (h : merge_asof left right = .ok out) :
    has_null_date left = false ∧ is_monotonic_dates left = true ∧
    has_null_date right = false ∧ is_monotonic_dates right = true ∧
    out = asof_join_by_rid left right := by
  unfold merge_asof at h
  by_cases h1 : has_null_date left
  · rw [if_pos h1] at h; cases h
  rw [if_neg h1] at h
  by_cases h2 : is_monotonic_dates left
  · rw [h2] at h
    simp only [Bool.not_true, Bool.false_eq_true, if_false] at h
    by_cases h3 : has_null_date right
    · rw [if_pos h3] at h; cases h
    rw [if_neg h3] at h
    by_cases h4 : is_monotonic_dates right
    · rw [h4] at h
      simp only [Bool.not_true, Bool.false_eq_true, if_false, Except.ok.injEq] at h
      exact ⟨Bool.not_eq_true _ ▸ Bool.eq_false_iff.mpr (fun hh => h1 (by rw [hh])),
        h2, Bool.eq_false_iff.mpr (fun hh => h3 (by rw [hh])), h4, h.symm⟩
    · have h4f : is_monotonic_dates right = false := Bool.eq_false_iff.mpr h4
      rw [h4f] at h
      simp only [Bool.not_false, if_true] at h
      cases h
  · have h2f : is_monotonic_dates left = false := Bool.eq_false_iff.mpr h2
    rw [h2f] at h
    simp only [Bool.not_false, if_true] at h
    cases h

/-- Membership in the by-RID nearest join: the left row is an input left
row and the partner is the nearest choice over its RID partition. -/
theorem mem_asof_join {left : List (Row α)} {right : List (Row β)}
    {l : Row α} {m : Option (Row β)} (h : (l, m) ∈ asof_join_by_rid left right) :
    l ∈ left ∧ m = asof_nearest (l.date.getD 0) (right.filter (fun r => r.rid == l.rid)) := by
  unfold asof_join_by_rid at h
  rcases List.mem_map.mp h with ⟨l2, hl2, heq⟩
  injection heq with he1 he2
  subst he1
  exact ⟨hl2, he2.symm⟩

/-- Every left row appears in the by-RID nearest join, with the nearest
partner for its RID partition. -/
theorem mem_asof_join_of_mem {left : List (Row α)} {right : List (Row β)}
    {l : Row α} (h : l ∈ left) :
    (l, asof_nearest (l.date.getD 0) (right.filter (fun r => r.rid == l.rid))) ∈
      asof_join_by_rid left right := by
  unfold asof_join_by_rid
  exact List.mem_map.mpr ⟨l, h, rfl⟩

/-- The left projection of the by-RID nearest join is the left input. -/
theorem asof_join_map_fst (left : List (Row α)) (right : List (Row β)) :
    (asof_join_by_rid left right).map Prod.fst = left := by
  unfold asof_join_by_rid
  rw [List.map_map]
  exact List.map_id _

/-- A filtered selection out of a monotone right side is pairwise
date-ordered. -/
theorem cands_pairwise {right : List (Row β)}
    (hmono : is_monotonic_dates right = true) (q : Row β → Bool) :
    (right.filter q).Pairwise date_le_row :=
  List.Pairwise.sublist (List.filter_sublist _) (monotone_pairwise right hmono)

/-- A row of a list with no null dates has a non-null date. -/
theorem no_null_date_isSome {l : List (Row α)} (h : has_null_date l = false)
    {r : Row α} (hr : r ∈ l) : ∃ d, r.date = some d := by
  unfold has_null_date at h
  have := List.any_eq_false.mp h r hr
  cases hd : r.date with
  | none => rw [hd] at this; simp at this
  | some d => exact ⟨d, rfl⟩

/-- Full specification of one output row of a successful `merge_asof`:
the left row comes from the left input and has a non-null date; a matched
partner exists whenever the RID has a usable right candidate; and any
matched partner is a same-RID right row minimizing the absolute date
difference, ties resolved to the earlier date. -/
theorem merge_asof_out_spec {L : List (Row α)} {R : List (Row β)}
    {out : List (Row α × Option (Row β))} (h : merge_asof L R = .ok out)
    {l : Row α} {m : Option (Row β)} (hm : (l, m) ∈ out) :
    l ∈ L ∧ ∃ t, l.date = some t ∧
      ((∃ a ∈ R, a.rid = l.rid ∧ a.date.isSome) → ∃ r, m = some r) ∧
      (∀ r, m = some r → r ∈ R ∧ r.rid = l.rid ∧ ∃ d, r.date = some d ∧
        ∀ a ∈ R, a.rid = l.rid → ∀ da, a.date = some da →
          |t - d| ≤ |t - da| ∧ (|t - d| = |t - da| → d ≤ da)) := by
  obtain ⟨hl0, hlm, hr0, hrm, hout⟩ := merge_asof_ok h
  subst hout
  obtain ⟨hlL, hmEq⟩ := mem_asof_join hm
  obtain ⟨t, ht⟩ := no_null_date_isSome hl0 hlL
  have ht0 : l.date.getD 0 = t := by rw [ht]; rfl
  refine ⟨hlL, t, ht, ?_, ?_⟩
  · rintro ⟨a, haR, harid, hasome⟩
    obtain ⟨da, hda⟩ := Option.isSome_iff_exists.mp hasome
    have hacand : a ∈ R.filter (fun r => r.rid == l.rid) :=
      List.mem_filter.mpr ⟨haR, by rw [harid]; exact beq_self_eq_true _⟩
    obtain ⟨r, hrEq⟩ := asof_nearest_isSome (t := l.date.getD 0) hacand hda
    exact ⟨r, by rw [hmEq, hrEq]⟩
  · intro r hmr
    have hnear : asof_nearest (l.date.getD 0) (R.filter (fun r0 => r0.rid == l.rid)) = some r :=
      hmEq.symm.trans hmr
    have hp := cands_pairwise hrm (fun r0 => r0.rid == l.rid)
    obtain ⟨hrc, d, hd, hmin⟩ := asof_nearest_spec hp hnear
    have hrR : r ∈ R := (List.mem_filter.mp hrc).1
    have hrid : r.rid = l.rid := eq_of_beq (List.mem_filter.mp hrc).2
    refine ⟨hrR, hrid, d, hd, ?_⟩
    intro a haR harid da hda
    have hacand : a ∈ R.filter (fun r0 => r0.rid == l.rid) :=
      List.mem_filter.mpr ⟨haR, by rw [harid]; exact beq_self_eq_true _⟩
    have hres := hmin a hacand da hda
    rw [ht0] at hres
    exact hres

/-- C1 (subject scoping): the imaging-to-visit-registry stage
(`attach_nearest_visit`) always raises on its duplicated EXAMDATE merge key
and so never matches any records at all — in particular never across
subjects; in the imaging-to-clinical-assessment (`tau_adni_asof`) and
tau-to-amyloid (`tau_amy_asof`) stages, a produced match always pairs rows
of the same subject key, regardless of timestamp proximity. -/
theorem C1_subject_scoping (α β : Type) (L : List (Row α)) (R : List (Row β))
    (out : List (Row α × Option (Row β))) (l : Row α) (r : Row β) :
    attach_nearest_visit L R = .error ("The column label 'EXAMDATE' is not unique")
    ∧ (tau_adni_asof L R = .ok out → (l, some r) ∈ out → r.rid = l.rid)
    ∧ (tau_amy_asof L R = .ok out → (l, some r) ∈ out → r.rid = l.rid) := by
  refine ⟨rfl, ?_, ?_⟩ <;> intro h hm
  · obtain ⟨-, t, -, -, hspec⟩ := merge_asof_out_spec h hm
    exact (hspec r rfl).2.1
  · obtain ⟨-, t, -, -, hspec⟩ := merge_asof_out_spec h hm
    exact (hspec r rfl).2.1

/-- Witness for C1: a concrete successful run of the tau-to-amyloid stage
in which the matched amyloid row carries the same RID as the tau row. -/
theorem C1_subject_scoping_witness :
    tau_amy_asof [(⟨some 1, some 100, ()⟩ : Row Unit)]
        [(⟨some 1, some 98, ()⟩ : Row Unit), ⟨some 1, some 102, ()⟩, ⟨some 2, some 200, ()⟩] =
      .ok [(⟨some 1, some 100, ()⟩, some ⟨some 1, some 98, ()⟩)]
    ∧ (⟨some 1, some 98, ()⟩ : Row Unit).rid = (⟨some 1, some 100, ()⟩ : Row Unit).rid :=
  ⟨rfl, (C1_subject_scoping Unit Unit [(⟨some 1, some 100, ()⟩ : Row Unit)]
      [(⟨some 1, some 98, ()⟩ : Row Unit), ⟨some 1, some 102, ()⟩, ⟨some 2, some 200, ()⟩]
      [((⟨some 1, some 100, ()⟩ : Row Unit), some (⟨some 1, some 98, ()⟩ : Row Unit))]
      ⟨some 1, some 100, ()⟩ ⟨some 1, some 98, ()⟩).2.2
      rfl (by decide)⟩

/-- C2 counterexample: a scan at date 100 with same-subject visit-registry
candidates at dates 98 and 102 is never matched by the visit-attach stage —
`attach_nearest_visit` raises on its duplicated EXAMDATE merge key before
any matching, so the claimed nearest/tie-break selection never happens
there. -/
theorem C2_nearest_tie_break_counterexample :
    attach_nearest_visit [(⟨some 1, some 100, ()⟩ : Row Unit)]
      [(⟨some 1, some 98, ()⟩ : Row Unit), ⟨some 1, some 102, ()⟩] =
      .error ("The column label 'EXAMDATE' is not unique") := rfl

/-- C2 (amended): the visit-attach stage never matches — it always raises
on its duplicated EXAMDATE merge key.  In the clinical-assessment and
tau-to-amyloid nearest stages, whenever the merge succeeds, a left row
with at least one same-subject right candidate is matched, and any match
minimizes the absolute timestamp difference over the same-subject
candidates, with an equal-distance tie always resolved to the earlier
right record (the merge is a pure function of its inputs, hence
reproducible). -/
theorem C2_nearest_tie_break (α β : Type) (L : List (Row α)) (R : List (Row β))
    (out : List (Row α × Option (Row β))) (l : Row α) (m : Option (Row β)) :
    attach_nearest_visit L R = .error ("The column label 'EXAMDATE' is not unique")
    ∧ (tau_adni_asof L R = .ok out → (l, m) ∈ out →
      ((∃ a ∈ R, a.rid = l.rid ∧ a.date.isSome) → ∃ r, m = some r)
      ∧ (∀ r, m = some r → ∃ t d, l.date = some t ∧ r.date = some d ∧
          ∀ a ∈ R, a.rid = l.rid → ∀ da, a.date = some da →
            |t - d| ≤ |t - da| ∧ (|t - d| = |t - da| → d ≤ da)))
    ∧ (tau_amy_asof L R = .ok out → (l, m) ∈ out →
      ((∃ a ∈ R, a.rid = l.rid ∧ a.date.isSome) → ∃ r, m = some r)
      ∧ (∀ r, m = some r → ∃ t d, l.date = some t ∧ r.date = some d ∧
          ∀ a ∈ R, a.rid = l.rid → ∀ da, a.date = some da →
            |t - d| ≤ |t - da| ∧ (|t - d| = |t - da| → d ≤ da))) := by
  refine ⟨rfl, ?_, ?_⟩ <;> intro h hm <;>
    obtain ⟨hlL, t, ht, hex, hmin⟩ := merge_asof_out_spec h hm <;>
    constructor
  · rintro ⟨a, ha, harid, hasome⟩
    exact hex ⟨a, mem_sort_values.mpr ha, harid, hasome⟩
  · intro r hmr
    obtain ⟨hrR, hrid, d, hd, hminAll⟩ := hmin r hmr
    exact ⟨t, d, ht, hd, fun a ha harid da hda =>
      hminAll a (mem_sort_values.mpr ha) harid da hda⟩
  · rintro ⟨a, ha, harid, hasome⟩
    exact hex ⟨a, mem_sort_values.mpr ha, harid, hasome⟩
  · intro r hmr
    obtain ⟨hrR, hrid, d, hd, hminAll⟩ := hmin r hmr
    exact ⟨t, d, ht, hd, fun a ha harid da hda =>
      hminAll a (mem_sort_values.mpr ha) harid da hda⟩

/-- Witness for C2 (amended): two candidates at distance 2 on either side
of the scan date; the clinical-assessment stage succeeds, matches the
earlier candidate (date 98), and the tie-break bounds hold against both
candidates. -/
theorem C2_nearest_tie_break_witness :
    tau_adni_asof [(⟨some 1, some 100, ()⟩ : Row Unit)]
        [(⟨some 1, some 98, ()⟩ : Row Unit), ⟨some 1, some 102, ()⟩] =
      .ok [(⟨some 1, some 100, ()⟩, some ⟨some 1, some 98, ()⟩)]
    ∧ (∃ t d, (⟨some 1, some 100, ()⟩ : Row Unit).date = some t ∧
        (⟨some 1, some 98, ()⟩ : Row Unit).date = some d ∧
        ∀ a ∈ [(⟨some 1, some 98, ()⟩ : Row Unit), ⟨some 1, some 102, ()⟩],
          a.rid = (⟨some 1, some 100, ()⟩ : Row Unit).rid → ∀ da, a.date = some da →
            |t - d| ≤ |t - da| ∧ (|t - d| = |t - da| → d ≤ da)) :=
  ⟨rfl,
    ((C2_nearest_tie_break Unit Unit [(⟨some 1, some 100, ()⟩ : Row Unit)]
        [(⟨some 1, some 98, ()⟩ : Row Unit), ⟨some 1, some 102, ()⟩]
        [((⟨some 1, some 100, ()⟩ : Row Unit), some (⟨some 1, some 98, ()⟩ : Row Unit))]
        ⟨some 1, some 100, ()⟩ (some ⟨some 1, some 98, ()⟩)).2.1
        rfl (by decide)).2 ⟨some 1, some 98, ()⟩ rfl⟩

/-- C3 counterexample: at the clinical-assessment nearest-match stage
(source lines 125-133) a left row with a null timestamp is NOT dropped
before matching — pandas raises on the null merge key instead, so no joined
output is produced at all (the claim would require the null row to be
dropped and the remaining row to appear once in the output). -/
theorem C3_left_outer_semantics_counterexample :
    tau_adni_asof [(⟨some 1, none, ()⟩ : Row Unit), ⟨some 1, some 5, ()⟩]
      ([] : List (Row Unit)) =
      .error ("Merge keys contain null values on left side") := rfl

/-- C3 (amended): the visit-attach stage never produces a joined output —
although source lines 27-31 drop null-keyed rows and sort, its `merge_asof`
call always raises on the duplicated EXAMDATE merge key.  The
clinical-assessment and tau-amyloid stages drop nothing: a null left
timestamp makes the merge raise instead of being dropped, and when those
stages succeed every left row appears exactly once in the joined output
(the left projection is a permutation of the left input), with a left row
whose subject has zero right-side rows receiving null right fields rather
than being dropped. -/
theorem C3_left_outer_semantics (α β : Type) (pet : List (Row α)) (reg : List (Row β))
    (out : List (Row α × Option (Row β))) (l : Row α) (m : Option (Row β)) :
    attach_nearest_visit pet reg = .error ("The column label 'EXAMDATE' is not unique")
    ∧ (tau_adni_asof pet reg = .ok out →
        (out.map Prod.fst).Perm pet
        ∧ ((l, m) ∈ out → (∀ a ∈ reg, a.rid ≠ l.rid) → m = none))
    ∧ (tau_amy_asof pet reg = .ok out →
        (out.map Prod.fst).Perm pet
        ∧ ((l, m) ∈ out → (∀ a ∈ reg, a.rid ≠ l.rid) → m = none))
    ∧ ((∃ r0 ∈ pet, r0.date = none) →
        tau_adni_asof pet reg = .error ("Merge keys contain null values on left side")) := by
  refine ⟨rfl, ?_, ?_, ?_⟩
  · intro h
    obtain ⟨-, -, -, -, hout⟩ := merge_asof_ok h
    constructor
    · rw [hout, asof_join_map_fst]
      exact sort_values_perm _
    · intro hm hnone
      rw [hout] at hm
      obtain ⟨-, hmEq⟩ := mem_asof_join hm
      have hcand : (sort_values reg).filter (fun r => r.rid == l.rid) = [] := by
        refine List.filter_eq_nil_iff.mpr ?_
        intro a ha hbeq
        exact hnone a (mem_sort_values.mp ha) (eq_of_beq hbeq)
      rw [hmEq, hcand]
      rfl
  · intro h
    obtain ⟨-, -, -, -, hout⟩ := merge_asof_ok h
    constructor
    · rw [hout, asof_join_map_fst]
      exact sort_values_perm _
    · intro hm hnone
      rw [hout] at hm
      obtain ⟨-, hmEq⟩ := mem_asof_join hm
      have hcand : (sort_values reg).filter (fun r => r.rid == l.rid) = [] := by
        refine List.filter_eq_nil_iff.mpr ?_
        intro a ha hbeq
        exact hnone a (mem_sort_values.mp ha) (eq_of_beq hbeq)
      rw [hmEq, hcand]
      rfl
  · rintro ⟨r0, hr0, hr0d⟩
    have hnull : has_null_date (sort_values pet) = true := by
      refine List.any_eq_true.mpr ⟨r0, mem_sort_values.mpr hr0, ?_⟩
      rw [hr0d]
      rfl
    unfold tau_adni_asof merge_asof
    rw [if_pos hnull]

/-- Witness for C3 (amended): a concrete clinical-assessment-stage run in
which the single left row survives into the output exactly once and, its
subject having no right-side rows, receives a null match. -/
theorem C3_left_outer_semantics_witness :
    tau_adni_asof [(⟨some 1, some 100, ()⟩ : Row Unit)] [(⟨some 2, some 50, ()⟩ : Row Unit)] =
      .ok [(⟨some 1, some 100, ()⟩, none)]
    ∧ (([((⟨some 1, some 100, ()⟩ : Row Unit), (none : Option (Row Unit)))]).map Prod.fst).Perm
        [(⟨some 1, some 100, ()⟩ : Row Unit)]
    ∧ (none : Option (Row Unit)) = none :=
  ⟨rfl,
    ((C3_left_outer_semantics Unit Unit
        [(⟨some 1, some 100, ()⟩ : Row Unit)]
        [(⟨some 2, some 50, ()⟩ : Row Unit)]
        [((⟨some 1, some 100, ()⟩ : Row Unit), (none : Option (Row Unit)))]
        ⟨some 1, some 100, ()⟩ none).2.1 rfl).1,
    ((C3_left_outer_semantics Unit Unit
        [(⟨some 1, some 100, ()⟩ : Row Unit)]
        [(⟨some 2, some 50, ()⟩ : Row Unit)]
        [((⟨some 1, some 100, ()⟩ : Row Unit), (none : Option (Row Unit)))]
        ⟨some 1, some 100, ()⟩ none).2.1 rfl).2 (by decide) (by decide)⟩

/-- C4 (tolerance gate boundary): after the cross-modality nearest join the
gap is the amyloid scan date minus the tau scan date in whole days; a row is
retained iff its gap is non-null and `abs(gap) < 365`; concretely a gap of
364 days is retained and a gap of 365 days is dropped. -/
theorem C4_tolerance_gate (α β : Type) (l : List (Row α × Option (Row β)))
    (p : Row α × Option (Row β)) (ra : Row α) (rb : Row β) (da dt : Int) :
    (rb.date = some da → ra.date = some dt →
      gap_days (ra, some rb) = some (da - dt))
    ∧ (p ∈ filter_scandiff l ↔ p ∈ l ∧ ∃ g, gap_days p = some g ∧ |g| < 365)
    ∧ filter_scandiff [((⟨some 1, some 0, ()⟩ : Row Unit), some (⟨some 1, some 364, ()⟩ : Row Unit))] =
        [((⟨some 1, some 0, ()⟩ : Row Unit), some (⟨some 1, some 364, ()⟩ : Row Unit))]
    ∧ filter_scandiff [((⟨some 1, some 0, ()⟩ : Row Unit), some (⟨some 1, some 365, ()⟩ : Row Unit))] =
        ([] : List (Row Unit × Option (Row Unit))) := by
  refine ⟨?_, ?_, by decide, by decide⟩
  · intro h1 h2
    simp [gap_days, h1, h2]
  · unfold filter_scandiff
    rw [List.mem_filter]
    constructor
    · rintro ⟨hp, hcond⟩
      refine ⟨hp, ?_⟩
      cases hg : gap_days p with
      | none => rw [hg] at hcond; cases hcond
      | some g =>
        rw [hg] at hcond
        exact ⟨g, rfl, of_decide_eq_true hcond⟩
    · rintro ⟨hp, g, hg, hlt⟩
      refine ⟨hp, ?_⟩
      rw [hg]
      exact decide_eq_true hlt

/-- Witness for C4: the gap of a concrete matched pair evaluates to the
amyloid date minus the tau date. -/
theorem C4_tolerance_gate_witness :
    (⟨some 1, some 364, ()⟩ : Row Unit).date = some 364
    ∧ (⟨some 1, some 0, ()⟩ : Row Unit).date = some 0
    ∧ gap_days ((⟨some 1, some 0, ()⟩ : Row Unit), some (⟨some 1, some 364, ()⟩ : Row Unit)) =
        some (364 - 0) :=
  ⟨rfl, rfl,
    (C4_tolerance_gate Unit Unit [] ((⟨some 1, some 0, ()⟩ : Row Unit), none)
      ⟨some 1, some 0, ()⟩ ⟨some 1, some 364, ()⟩ 364 0).1 rfl rfl⟩

/-- C5 counterexample: the amyloid metadata/QC merge (source lines 150-155)
joins on `RID` alone, so it pairs an `amy_meta` row at visit "BL" with an
`amy_qc` row at visit "M12" of the same subject — refuting the claim that
both modalities join only on an exact subject-and-visit-code key. -/
theorem C5_exact_key_merge_counterexample :
    amy_meta_qc_merge [(⟨1, "BL", ()⟩ : KeyedRow Unit)] [(⟨1, "M12", ()⟩ : KeyedRow Unit)] =
      [(⟨1, "BL", ()⟩, some ⟨1, "M12", ()⟩)]
    ∧ ("BL" : String) ≠ "M12" :=
  ⟨by decide, by decide⟩

/-- C5 (amended): the tau metadata/QC merge joins rows exactly when both
the subject key and the visit code agree; the amyloid metadata/QC merge
joins on the subject key alone and may pair rows with differing visit
codes.  Neither performs any nearest-timestamp logic. -/
theorem C5_exact_key_merge (α β : Type) (L : List (KeyedRow α)) (R : List (KeyedRow β))
    (l : KeyedRow α) (r : KeyedRow β) :
    ((l, some r) ∈ tau_meta_qc_merge L R → r.rid = l.rid ∧ r.viscode = l.viscode)
    ∧ ((l, some r) ∈ amy_meta_qc_merge L R → r.rid = l.rid) := by
  constructor
  · intro hm
    rcases List.mem_flatMap.mp hm with ⟨a, haL, hbr⟩
    by_cases hE : (R.filter (fun r0 => r0.rid == a.rid && r0.viscode == a.viscode)).isEmpty
    · rw [if_pos hE] at hbr
      rcases List.mem_singleton.mp hbr with h
      injection h with h1 h2
      cases h2
    · rw [if_neg hE] at hbr
      rcases List.mem_map.mp hbr with ⟨r2, hr2, heq⟩
      injection heq with h1 h2
      injection h2 with h3
      subst h1
      subst h3
      have hcond := (List.mem_filter.mp hr2).2
      rw [Bool.and_eq_true] at hcond
      exact ⟨eq_of_beq hcond.1, eq_of_beq hcond.2⟩
  · intro hm
    rcases List.mem_flatMap.mp hm with ⟨a, haL, hbr⟩
    by_cases hE : (R.filter (fun r0 => r0.rid == a.rid)).isEmpty
    · rw [if_pos hE] at hbr
      rcases List.mem_singleton.mp hbr with h
      injection h with h1 h2
      cases h2
    · rw [if_neg hE] at hbr
      rcases List.mem_map.mp hbr with ⟨r2, hr2, heq⟩
      injection heq with h1 h2
      injection h2 with h3
      subst h1
      subst h3
      exact eq_of_beq (List.mem_filter.mp hr2).2

/-- Witness for C5 (amended): a concrete tau-side merge pairs only rows
agreeing on both keys, and a concrete amyloid-side merge pairs rows of the
same subject. -/
theorem C5_exact_key_merge_witness :
    ((⟨1, "BL", ()⟩ : KeyedRow Unit), some (⟨1, "BL", ()⟩ : KeyedRow Unit)) ∈
        tau_meta_qc_merge [(⟨1, "BL", ()⟩ : KeyedRow Unit)] [(⟨1, "BL", ()⟩ : KeyedRow Unit)]
    ∧ (1 : Int) = 1 ∧ ("BL" : String) = "BL" :=
  ⟨by decide,
    ((C5_exact_key_merge Unit Unit [(⟨1, "BL", ()⟩ : KeyedRow Unit)]
        [(⟨1, "BL", ()⟩ : KeyedRow Unit)] ⟨1, "BL", ()⟩ ⟨1, "BL", ()⟩).1 (by decide)).1,
    ((C5_exact_key_merge Unit Unit [(⟨1, "BL", ()⟩ : KeyedRow Unit)]
        [(⟨1, "BL", ()⟩ : KeyedRow Unit)] ⟨1, "BL", ()⟩ ⟨1, "BL", ()⟩).1 (by decide)).2⟩

/-- C6 (region column selection and ordering): whenever line 209 does not
raise (the catalog reaches past every subcortical position), the pruned
catalog is the positional-exclusion of the subcortical indices, the
selected region columns are a sublist of (hence in the order of) that
pruned catalog, they are exactly its entries present among the table's
columns (absent entries silently skipped), the final column list is every
non-SUVR column, untouched and ahead, followed by those region columns,
and permuting the table's columns leaves the region-column selection
unchanged; a catalog missing a subcortical position makes line 209 raise
instead. -/
theorem C6_region_column_ordering (catalog cols cols2 ord : List String) :
    (ordered_labels catalog = .ok ord →
      ord = (catalog.enum.filter (fun p => !subcortical_idx.contains p.1)).map (fun p => p.2)
      ∧ (suvr_cols_from ord cols).Sublist ord
      ∧ (∀ c, c ∈ suvr_cols_from ord cols ↔ c ∈ ord ∧ c ∈ cols)
      ∧ tau_amy_cortical_cols catalog cols = .ok (non_suvr_cols cols ++ suvr_cols_from ord cols)
      ∧ (cols.Perm cols2 → suvr_cols_ordered catalog cols2 = suvr_cols_ordered catalog cols))
    ∧ (¬ (∀ i ∈ subcortical_idx, i < catalog.length) →
        ordered_labels catalog = .error ("IndexError: index out of bounds")) := by
  constructor
  · intro h
    have hord : ord =
        (catalog.enum.filter (fun p => !subcortical_idx.contains p.1)).map (fun p => p.2) := by
      unfold ordered_labels np_delete at h
      by_cases hc : subcortical_idx.all (fun i => decide (i < catalog.length)) = true
      · rw [if_pos hc] at h
        injection h with h2
        exact h2.symm
      · rw [if_neg hc] at h
        cases h
    refine ⟨hord, List.filter_sublist _, ?_, ?_, ?_⟩
    · intro c
      unfold suvr_cols_from
      rw [List.mem_filter]
      exact ⟨fun ⟨h1, h2⟩ => ⟨h1, List.elem_iff.mp h2⟩,
        fun ⟨h1, h2⟩ => ⟨h1, List.elem_iff.mpr h2⟩⟩
    · unfold tau_amy_cortical_cols suvr_cols_ordered
      rw [h]
      rfl
    · intro hperm
      unfold suvr_cols_ordered
      rw [h]
      show Except.ok (suvr_cols_from ord cols2) = Except.ok (suvr_cols_from ord cols)
      congr 1
      unfold suvr_cols_from
      apply List.filter_congr
      intro c hc
      rw [Bool.eq_iff_iff]
      exact ⟨fun h2 => List.elem_iff.mpr (hperm.mem_iff.mpr (List.elem_iff.mp h2)),
        fun h2 => List.elem_iff.mpr (hperm.mem_iff.mp (List.elem_iff.mp h2))⟩
  · intro hn
    cases hall : subcortical_idx.all (fun i => decide (i < catalog.length)) with
    | true =>
      exact absurd (fun i hi => of_decide_eq_true (List.all_eq_true.mp hall i hi)) hn
    | false =>
      unfold ordered_labels np_delete
      rw [if_neg (by rw [hall]; exact Bool.false_ne_true)]

/-- Witness for C6: an 84-entry catalog (so line 209 does not raise) whose
pruned form has 68 entries; permuting a concrete table's columns leaves the
selected region columns unchanged. -/
theorem C6_region_column_ordering_witness :
    ordered_labels (List.replicate 84 ("X_SUVR")) = .ok (List.replicate 68 ("X_SUVR"))
    ∧ (["RID", "B_SUVR", "A_SUVR"] : List String).Perm ["B_SUVR", "RID", "A_SUVR"]
    ∧ suvr_cols_ordered (List.replicate 84 ("X_SUVR")) ["B_SUVR", "RID", "A_SUVR"] =
        suvr_cols_ordered (List.replicate 84 ("X_SUVR")) ["RID", "B_SUVR", "A_SUVR"] :=
  ⟨rfl, by decide,
    ((C6_region_column_ordering (List.replicate 84 ("X_SUVR")) ["RID", "B_SUVR", "A_SUVR"]
      ["B_SUVR", "RID", "A_SUVR"] (List.replicate 68 ("X_SUVR"))).1 rfl).2.2.2.2 (by decide)⟩

/-- C10 (implicit region-column drop): whenever line 209 does not raise,
the final column list is exactly the non-SUVR columns followed by the
retained catalog labels present in the table; a column ending in `_SUVR`
survives iff it is a table column AND among the retained (non-subcortical)
catalog labels, while a column not ending in `_SUVR` survives iff it is a
table column, unconditionally. -/
theorem C10_suvr_column_drop (catalog cols : List String) (c : String) (ord : List String) :
    ordered_labels catalog = .ok ord →
    tau_amy_cortical_cols catalog cols = .ok (non_suvr_cols cols ++ suvr_cols_from ord cols)
    ∧ (ends_with c ("_SUVR") = true →
        (c ∈ non_suvr_cols cols ++ suvr_cols_from ord cols ↔ c ∈ cols ∧ c ∈ ord))
    ∧ (ends_with c ("_SUVR") = false →
        (c ∈ non_suvr_cols cols ++ suvr_cols_from ord cols ↔ c ∈ cols)) := by
  intro h
  refine ⟨?_, ?_, ?_⟩
  · unfold tau_amy_cortical_cols suvr_cols_ordered
    rw [h]
    rfl
  · intro hs
    rw [List.mem_append]
    constructor
    · rintro (h1 | h2)
      · have hcond := (List.mem_filter.mp h1).2
        rw [hs] at hcond
        simp at hcond
      · have hm := List.mem_filter.mp h2
        exact ⟨List.elem_iff.mp hm.2, hm.1⟩
    · rintro ⟨hc, ho⟩
      exact Or.inr (List.mem_filter.mpr ⟨ho, List.elem_iff.mpr hc⟩)
  · intro hs
    rw [List.mem_append]
    constructor
    · rintro (h1 | h2)
      · exact (List.mem_filter.mp h1).1
      · exact List.elem_iff.mp (List.mem_filter.mp h2).2
    · intro hc
      refine Or.inl (List.mem_filter.mpr ⟨hc, ?_⟩)
      rw [hs]
      rfl

/-- Witness for C10: with an 84-entry catalog (line 209 succeeds), a
concrete SUVR column outside the retained catalog is dropped, while a
concrete non-SUVR column passes through. -/
theorem C10_suvr_column_drop_witness :
    ordered_labels (List.replicate 84 ("X_SUVR")) = .ok (List.replicate 68 ("X_SUVR"))
    ∧ (("C_SUVR" : String) ∈ non_suvr_cols ["RID", "C_SUVR"] ++
          suvr_cols_from (List.replicate 68 ("X_SUVR")) ["RID", "C_SUVR"] ↔
        ("C_SUVR" : String) ∈ ["RID", "C_SUVR"] ∧
          ("C_SUVR" : String) ∈ List.replicate 68 ("X_SUVR"))
    ∧ (("RID" : String) ∈ non_suvr_cols ["RID", "C_SUVR"] ++
          suvr_cols_from (List.replicate 68 ("X_SUVR")) ["RID", "C_SUVR"] ↔
        ("RID" : String) ∈ ["RID", "C_SUVR"]) :=
  ⟨rfl,
    ((C10_suvr_column_drop (List.replicate 84 ("X_SUVR")) ["RID", "C_SUVR"] "C_SUVR"
      (List.replicate 68 ("X_SUVR"))) rfl).2.1 (by decide),
    ((C10_suvr_column_drop (List.replicate 84 ("X_SUVR")) ["RID", "C_SUVR"] "RID"
      (List.replicate 68 ("X_SUVR"))) rfl).2.2 (by decide)⟩

/-- `drop_duplicates(keep="last")` restricted to one RID is exactly the
last input record of that RID. -/
theorem ddl_filter (rid : Int) : ∀ l : List ApoeRow,
    (drop_duplicates_last l).filter (fun r => r.rid == rid) =
      (match (l.filter (fun r => r.rid == rid)).getLast? with
       | none => []
       | some r => [r])
  | [] => by simp [drop_duplicates_last]
  | x :: xs => by
    have hcons : drop_duplicates_last (x :: xs) =
        if (xs.any fun y => y.rid == x.rid) then drop_duplicates_last xs
        else x :: drop_duplicates_last xs := rfl
    by_cases hdup : (xs.any fun y => y.rid == x.rid) = true
    · rw [hcons, if_pos hdup, ddl_filter rid xs]
      by_cases hx : (x.rid == rid) = true
      · have hxr : x.rid = rid := eq_of_beq hx
        obtain ⟨y, hy, hyx⟩ := List.any_eq_true.mp hdup
        have hyrid : (y.rid == rid) = true := by
          rw [eq_of_beq hyx, hxr]
          exact beq_self_eq_true _
        have hne : xs.filter (fun r => r.rid == rid) ≠ [] := by
          intro hnil
          exact (List.filter_eq_nil_iff.mp hnil y hy) hyrid
        rw [List.filter_cons, if_pos hx]
        cases hfl : xs.filter (fun r => r.rid == rid) with
        | nil => exact absurd hfl hne
        | cons z zs => rw [List.getLast?_cons_cons]
      · rw [List.filter_cons, if_neg hx]
    · rw [hcons, if_neg hdup]
      by_cases hx : (x.rid == rid) = true
      · have hxr : x.rid = rid := eq_of_beq hx
        have hnil : xs.filter (fun r => r.rid == rid) = [] := by
          refine List.filter_eq_nil_iff.mpr ?_
          intro y hy hyq
          apply hdup
          refine List.any_eq_true.mpr ⟨y, hy, ?_⟩
          have hyx : y.rid = x.rid := by rw [eq_of_beq hyq, hxr]
          rw [hyx]
          exact beq_self_eq_true _
        rw [List.filter_cons, if_pos hx, List.filter_cons, if_pos hx,
          ddl_filter rid xs, hnil]
        rfl
      · rw [List.filter_cons, if_neg hx, List.filter_cons, if_neg hx]
        exact ddl_filter rid xs

/-- `add_apoe4_status` restricted to one RID: exactly one surviving pair,
built from the last genotype of that RID (none when the RID is absent). -/
theorem add_apoe4_filter (l : List ApoeRow) (rid : Int) :
    (add_apoe4_status l).filter (fun p => p.1 == rid) =
      (match last_genotype l rid with
       | none => []
       | some g => [(rid, apoe_mapping g)]) := by
  unfold add_apoe4_status
  rw [List.filter_map]
  rw [show ((fun p : Int × Option Nat => p.1 == rid) ∘
      (fun r : ApoeRow => (r.rid, apoe_mapping r.genotype))) =
      (fun r : ApoeRow => r.rid == rid) from rfl]
  rw [ddl_filter rid l]
  unfold last_genotype
  cases hg : (l.filter (fun r => r.rid == rid)).getLast? with
  | none => rfl
  | some r =>
    have hr : (r.rid == rid) = true :=
      (List.mem_filter.mp (List.mem_of_getLast?_eq_some hg)).2
    simp [eq_of_beq hr]

/-- C7 (deduplication keeps the last record per subject): restricted to any
subject key, the APOE output is exactly one record — built from the
genotype record appearing last in input order — and the concrete sequence
["3/4","2/2","4/4"] for RID 7 yields the "4/4" record, risk score 2. -/
theorem C7_dedup_keeps_last (l : List ApoeRow) (rid : Int) :
    ((add_apoe4_status l).filter (fun p => p.1 == rid) =
      (match last_genotype l rid with
       | none => []
       | some g => [(rid, apoe_mapping g)]))
    ∧ add_apoe4_status [⟨7, "3/4"⟩, ⟨7, "2/2"⟩, ⟨7, "4/4"⟩] = [(7, some 2)] :=
  ⟨add_apoe4_filter l rid, by decide⟩

/-- Filtering twice by the same predicate equals filtering once. -/
theorem filter_idem (p : α → Bool) (l : List α) :
    (l.filter p).filter p = l.filter p := by
  rw [List.filter_filter]
  apply List.filter_congr
  intro a _
  rw [Bool.and_self]

/-- Re-filtering by a predicate that already filtered the list is a no-op,
even with another filter in between. -/
theorem filter_absorb (p q : α → Bool) (l : List α) :
    ((l.filter p).filter q).filter p = (l.filter p).filter q := by
  simp only [List.filter_filter]
  apply List.filter_congr
  intro a _
  cases p a <;> cases q a <;> rfl

/-- C8 (QC filter idempotence): applying `filter_pet_qc` twice with the same
parameters equals applying it once; and a record is retained iff the QC
column is absent from the schema or its flag equals the pass value exactly,
and — when a non-empty exclusion list is supplied and the tracer column
exists — its tracer is not excluded. -/
theorem C8_qc_filter_idempotent (t : PetTable) (qc_pass : Int) (ex : List String) (r : PetRow) :
    filter_pet_qc (filter_pet_qc t qc_pass ex) qc_pass ex = filter_pet_qc t qc_pass ex
    ∧ (r ∈ (filter_pet_qc t qc_pass ex).rows ↔ r ∈ t.rows ∧
        (t.has_qc_col = true → r.qc_flag = qc_pass) ∧
        ((ex ≠ [] ∧ t.has_tracer_col = true) → r.tracer ∉ ex)) := by
  constructor
  · by_cases hq : t.has_qc_col <;> by_cases he : ex.isEmpty <;> by_cases ht : t.has_tracer_col <;>
      (simp [filter_pet_qc, hq, he, ht, filter_idem, filter_absorb]
       try (apply List.filter_congr
            intro a _
            cases a.qc_flag == qc_pass <;> cases decide (a.tracer ∈ ex) <;> rfl))
  · by_cases hq : t.has_qc_col <;> by_cases he : ex.isEmpty <;> by_cases ht : t.has_tracer_col <;>
      [skip; skip; skip; skip; skip; skip; skip; skip] <;>
      first
      | (have hee : ex = [] := List.isEmpty_iff.mp he
         subst hee
         simp [filter_pet_qc, hq, ht, List.mem_filter])
      | (have hne : ex ≠ [] := fun hh => he (by rw [hh]; rfl)
         simp [filter_pet_qc, hq, he, ht, hne, List.mem_filter, beq_iff_eq, List.elem_iff]
         try exact fun _ => and_comm)

/-- A row produced by the APOE left-merge either has a null APOE4 value
(no matching APOE record) or takes its APOE4 value, and its RID, from a
matching entry of the APOE table. -/
theorem merge_apoe_mem {rows : List (Row TAPay)} {ap : List (Int × Option Nat)}
    {t2 : Row TAPay} (h : t2 ∈ merge_apoe rows ap) :
    t2.pay.apoe4 = none ∨ ∃ pr ∈ ap, t2.rid = some pr.1 ∧ t2.pay.apoe4 = pr.2 := by
  rcases List.mem_flatMap.mp h with ⟨t, htR, hbr⟩
  by_cases hE : (ap.filter (fun p => t.rid == some p.1)).isEmpty
  · rw [if_pos hE] at hbr
    rcases List.mem_singleton.mp hbr with rfl
    exact Or.inl rfl
  · rw [if_neg hE] at hbr
    rcases List.mem_map.mp hbr with ⟨pr, hpr, heq⟩
    subst heq
    exact Or.inr ⟨pr, (List.mem_filter.mp hpr).1,
      eq_of_beq (List.mem_filter.mp hpr).2, rfl⟩

/-- Every entry of `add_apoe4_status` carries the risk value of the last
genotype recorded for its RID. -/
theorem add_apoe4_mem {l : List ApoeRow} {pr : Int × Option Nat}
    (h : pr ∈ add_apoe4_status l) :
    ∃ g, last_genotype l pr.1 = some g ∧ pr.2 = apoe_mapping g := by
  unfold add_apoe4_status at h
  rcases List.mem_map.mp h with ⟨r, hr, heq⟩
  subst heq
  have hself : r ∈ (drop_duplicates_last l).filter (fun y => y.rid == r.rid) :=
    List.mem_filter.mpr ⟨hr, beq_self_eq_true _⟩
  rw [ddl_filter r.rid l] at hself
  cases hg : (l.filter (fun y => y.rid == r.rid)).getLast? with
  | none => rw [hg] at hself; cases hself
  | some z =>
    rw [hg] at hself
    rcases List.mem_singleton.mp hself with rfl
    refine ⟨r.genotype, ?_, rfl⟩
    unfold last_genotype
    rw [hg]
    rfl

/-- C9 (implicit output invariant): every row surviving the final tolerance
filter has a non-null APOE4 risk score and a non-null DX, and its subject
has a genotype record whose last value lies inside the six-key mapping —
subjects with no genotype record or an unmapped genotype are excluded
entirely (the later column-selection step only drops columns, never rows,
and keeps the non-SUVR columns APOE4 and DX). -/
theorem C9_output_requires_apoe_dx (γ : Type) (tauMerged : List (Row Unit))
    (adni2 : List (Row AdniPay)) (apoeRaw : List ApoeRow) (amyRows : List (Row γ))
    (ta : List (Row TAPay)) (out : List (Row TAPay × Option (Row γ))) :
    tau_adni_join tauMerged adni2 = .ok ta →
    tau_amy_asof (dropna_apoe_dx (merge_apoe ta (add_apoe4_status apoeRaw))) amyRows = .ok out →
    ∀ p ∈ filter_scandiff out,
      p.1.pay.apoe4.isSome = true ∧ p.1.pay.dx.isSome = true ∧
      ∃ rid g, p.1.rid = some rid ∧ last_genotype apoeRaw rid = some g ∧
        (apoe_mapping g).isSome = true := by
  intro h1 h2 p hp
  have hpOut : p ∈ out := by
    unfold filter_scandiff at hp
    exact (List.mem_filter.mp hp).1
  obtain ⟨l, m⟩ := p
  obtain ⟨hlL, -⟩ := merge_asof_out_spec h2 hpOut
  have hlD := List.mem_filter.mp (mem_sort_values.mp hlL)
  have hlM : l ∈ merge_apoe ta (add_apoe4_status apoeRaw) := hlD.1
  have hcond := hlD.2
  rw [Bool.and_eq_true] at hcond
  obtain ⟨hap4, hdx⟩ := hcond
  refine ⟨hap4, hdx, ?_⟩
  rcases merge_apoe_mem hlM with hnone | ⟨pr, hpr, hridEq, hapEq⟩
  · rw [hnone] at hap4
    cases hap4
  · obtain ⟨g, hlast, hprEq⟩ := add_apoe4_mem hpr
    refine ⟨pr.1, g, hridEq, hlast, ?_⟩
    rw [← hprEq, ← hapEq]
    exact hap4

/-- Witness for C9: a complete concrete run — one subject with genotype
"4/4", a diagnosis from the clinical table, and a matched amyloid scan 50
days away — whose surviving output row has both fields non-null and a
mapped genotype. -/
theorem C9_output_requires_apoe_dx_witness :
    tau_adni_join [⟨some 1, some 100, ()⟩] [⟨some 1, some 90, ⟨some "CN"⟩⟩] =
      .ok [⟨some 1, some 100, ⟨some "CN", none⟩⟩]
    ∧ tau_amy_asof (dropna_apoe_dx (merge_apoe [⟨some 1, some 100, ⟨some "CN", none⟩⟩]
        (add_apoe4_status [⟨1, "4/4"⟩]))) [(⟨some 1, some 150, ()⟩ : Row Unit)] =
      .ok [(⟨some 1, some 100, ⟨some "CN", some 2⟩⟩, some ⟨some 1, some 150, ()⟩)]
    ∧ ((⟨some 1, some 100, ⟨some "CN", some 2⟩⟩ : Row TAPay).pay.apoe4.isSome = true
        ∧ (⟨some 1, some 100, ⟨some "CN", some 2⟩⟩ : Row TAPay).pay.dx.isSome = true
        ∧ ∃ rid g, (⟨some 1, some 100, ⟨some "CN", some 2⟩⟩ : Row TAPay).rid = some rid
            ∧ last_genotype [⟨1, "4/4"⟩] rid = some g
            ∧ (apoe_mapping g).isSome = true) :=
  ⟨rfl, rfl,
    C9_output_requires_apoe_dx Unit [⟨some 1, some 100, ()⟩] [⟨some 1, some 90, ⟨some "CN"⟩⟩]
      [⟨1, "4/4"⟩] [(⟨some 1, some 150, ()⟩ : Row Unit)]
      [⟨some 1, some 100, ⟨some "CN", none⟩⟩]
      [(⟨some 1, some 100, ⟨some "CN", some 2⟩⟩, some ⟨some 1, some 150, ()⟩)]
      rfl rfl
      (⟨some 1, some 100, ⟨some "CN", some 2⟩⟩, some ⟨some 1, some 150, ()⟩)
      (by decide)⟩
